import Mathlib

/-!
Shallow embedding of the autorix policy-evaluation engine
(packages/core: evaluate.ts, evaluateAll.ts, conditions/evaluate.ts,
utils/wildcard.ts, utils/vars.ts, validatePolicy.ts) and of the in-memory
policy provider (packages/storage: MemoryPolicyProvider), together with
theorems settling the specification claims about them.

Modelling conventions:
* JavaScript runtime values are modelled by `JsValue`.  JS numbers are
  modelled as integers (`Int`); no claim under verification depends on
  fractional or IEEE-754 behaviour.
* Functions that can throw are `Option`- or `Except`-valued (`none` /
  `.error` = a thrown exception).
* `wildcardMatch` compiles its pattern to a regular expression escaping
  the characters `. + ^ $ { } ( ) | [ ] \` — but not `?`.  The compiled
  regex is modelled by a list of atoms (`RegexAtom`); an unescaped `?`
  keeps its regex meaning (previous atom optional / lazy quantifier) and
  a `?` with nothing to quantify is a regex syntax error (`none`).  The
  regex `.` produced for `*` does not match JS line terminators, which
  the star case reproduces.
-/

namespace Autorix

/-- Model of a JavaScript runtime value.  Numbers are modelled as `Int`
(the claims under verification never depend on non-integer numerics).
Objects are association lists of fields; realizable JS objects have
no duplicate keys, and lookups take the first binding. -/
inductive JsValue where
  | undefined
  | null
  | bool (b : Bool)
  | num (n : Int)
  | str (s : String)
  | arr (elems : List JsValue)
  | obj (fields : List (String × JsValue))

/-- JS strict equality `===` on primitives; on objects and arrays `===`
is reference equality, so two independently-built values compare `false`. -/
def jsStrictEq : JsValue → JsValue → Bool
  | .undefined, .undefined => true
  | .null, .null => true
  | .bool a, .bool b => a == b
  | .num a, .num b => a == b
  | .str a, .str b => a == b
  | _, _ => false

/-- JS line terminators (not matched by the regex `.`). -/
def isLineTerm (c : Char) : Bool :=
  c == '\n' || c == '\r' || c == Char.ofNat 0x2028 || c == Char.ofNat 0x2029

mutual

/-- JS `String(v)` coercion (`String()` of an array is its
`Array.prototype.join(",")`, where `null`/`undefined` elements become
the empty string; objects stringify to `[object Object]`). -/
def jsToString : JsValue → String
  | .undefined => "undefined"
  | .null => "null"
  | .bool b => cond b "true" "false"
  | .num n => toString n
  | .str s => s
  | .arr xs => jsArrToString xs
  | .obj _ => "[object Object]"

/-- Stringification of an array's elements, comma-joined. -/
def jsArrToString : List JsValue → String
  | [] => ""
  | [v] =>
    match v with
    | .undefined => ""
    | .null => ""
    | w => jsToString w
  | v :: rest =>
    (match v with
     | .undefined => ""
     | .null => ""
     | w => jsToString w) ++ "," ++ jsArrToString rest

end

/-- JS property access `v[k]` for a string key: field of an object,
`undefined` on anything else (also on a missing field). -/
def jsFieldGet (v : JsValue) (k : String) : JsValue :=
  match v with
  | .obj fs =>
    match fs.find? (fun f => f.1 == k) with
    | some f => f.2
    | none => .undefined
  | _ => .undefined

/-- Splitting a string at `'.'` (JS `path.split('.')`): accumulator-based,
so that `""` splits to `[""]` and `"a."` to `["a", ""]`. -/
def splitDotAux : List Char → List Char → List String
  | [], acc => [String.mk acc.reverse]
  | c :: rest, acc =>
    if c = '.' then String.mk acc.reverse :: splitDotAux rest []
    else splitDotAux rest (c :: acc)

/-- JS `path.split('.')`. -/
def splitPath (s : String) : List String :=
  splitDotAux s.data []

/-- JS `String.prototype.trim` (whitespace stripped from both ends). -/
def jsTrim (s : String) : String :=
  String.mk ((s.data.dropWhile Char.isWhitespace).reverse.dropWhile Char.isWhitespace).reverse

/-- Modelled from the spec: the dotted-path lookup `getPath` lives in
src/packages/core/src/utils/path.ts, which is not in the corpus.  Per
spec §4.4 the captured path is dot-resolved against the composed context
view and the lookup short-circuits to `undefined` on any missing
intermediate key rather than throwing. -/
def getPath (root : JsValue) (path : String) : JsValue :=
  (splitPath path).foldl jsFieldGet root

/-- Modelled from the spec: `toNumber` lives in the missing
src/packages/core/src/utils/path.ts.  Per spec §4.3 both numeric
operands are "coerced via numeric parse; non-numeric input fails closed"
(`none` = unparseable).  JS numbers being modelled as `Int`, the parse
accepts integer literals. -/
def toNumber : JsValue → Option Int
  | .num n => some n
  | .str s => s.toInt?
  | _ => none

/-- Modelled from the spec: `toBoolean` lives in the missing
src/packages/core/src/utils/path.ts.  Per spec §4.3 both operands are
"coerced to boolean truthiness"; unrecognized input is `none` (the
caller fails closed on `undefined`). -/
def toBoolean : JsValue → Option Bool
  | .bool b => some b
  | .str s => if s == "true" then some true else if s == "false" then some false else none
  | _ => none

/-- An atom of the regex compiled by `wildcardMatch`:
a literal character (possibly `?`-quantified) or `.*` for `*`.
The `lazy` flags record `??` / `*?` lazy quantifiers (same language;
a further `?` after a lazy quantifier is a regex syntax error). -/
inductive RegexAtom where
  | lit (c : Char)
  | star (lazy : Bool)
  | opt (c : Char) (lazy : Bool)

/-- Compilation of a wildcard pattern to regex atoms, reproducing
`pattern.replace(/[.+^${}()|[\]\\]/g, '\\$&')` followed by `* → .*`:
every character other than `*` and `?` becomes a literal atom, `*`
becomes `.*`, and the unescaped `?` quantifies the preceding atom
(`none` = "nothing to repeat" regex syntax error, a thrown exception). -/
def compileGo (acc : List RegexAtom) : List Char → Option (List RegexAtom)
  | [] => some acc.reverse
  | c :: rest =>
    if c = '*' then compileGo (.star false :: acc) rest
    else if c = '?' then
      match acc with
      | .lit c' :: as => compileGo (.opt c' false :: as) rest
      | .star false :: as => compileGo (.star true :: as) rest
      | .opt c' false :: as => compileGo (.opt c' true :: as) rest
      | _ => none
    else compileGo (.lit c :: acc) rest

/-- The suffixes of `s` reachable by letting `.*` absorb characters from
the front: all of them, stopping after a line terminator (which `.`
does not match). -/
def starTails : List Char → List (List Char)
  | [] => [[]]
  | c :: s => (c :: s) :: (if isLineTerm c then [] else starTails s)

/-- Language membership for a compiled atom list against an input,
anchored at both ends (the code builds `^...$`). -/
def matchAtoms : List RegexAtom → List Char → Bool
  | [], [] => true
  | [], _ :: _ => false
  | .lit _ :: _, [] => false
  | .lit c :: as, x :: s => c == x && matchAtoms as s
  | .star _ :: as, s => (starTails s).any (fun t => matchAtoms as t)
  | .opt c _ :: as, s =>
    matchAtoms as s ||
      (match s with
       | [] => false
       | x :: s' => c == x && matchAtoms as s')

/-- utils/wildcard.ts `wildcardMatch`: `'*'` alone matches everything;
otherwise the pattern is compiled to an anchored regex and tested
(`none` = the `RegExp` constructor threw). -/
def wildcardMatch (pattern input : String) : Option Bool :=
  if pattern == "*" then some true
  else (compileGo [] pattern.data).map (fun atoms => matchAtoms atoms input.data)

/-- utils/wildcard.ts `matchOneOrMany` over an explicit pattern list:
`list.some(p => wildcardMatch(p, value))`, left-to-right with JS
short-circuiting (a later pattern that would throw is not reached once
one matches); the empty list matches nothing. -/
def matchStringList : List String → String → Option Bool
  | [], _ => some false
  | p :: ps, v =>
    match wildcardMatch p v with
    | none => none
    | some true => some true
    | some false => matchStringList ps v

/-- types.ts `Effect`: the two-valued statement effect. -/
inductive Effect where
  | Allow
  | Deny
deriving DecidableEq

/-- A TS `string | string[]` value (statement `Action` / `Resource`). -/
inductive StrOrList where
  | one (s : String)
  | many (l : List String)

/-- The underlying pattern list of a `string | string[]`
(`Array.isArray(patterns) ? patterns : [patterns]`). -/
def StrOrList.toList : StrOrList → List String
  | .one s => [s]
  | .many l => l

/-- types.ts `ConditionBlock` as it exists at runtime: an object mapping
operator-name keys to key/value maps.  Unknown operator keys can occur
(the TS type only lists the four registered ones, but nothing stops a
document author at runtime), which is what claim C8 is about. -/
abbrev ConditionBlock := List (String × List (String × JsValue))

/-- types.ts `Statement`. -/
structure Statement where
  Sid : Option String := none
  Effect : Effect
  Action : StrOrList
  Resource : StrOrList
  Condition : Option ConditionBlock := none

/-- types.ts `PolicyDocument`. -/
structure PolicyDocument where
  Version : Option String := none
  Statement : List Statement

/-- types.ts `AutorixContext`.  The declared TS interface types each
top-level field; at runtime they are arbitrary JS values, which the
model reflects by giving every field type `JsValue` (the TS-absent
fields default to `undefined`). -/
structure AutorixContext where
  scope : JsValue := .undefined
  principal : JsValue := .undefined
  resource : JsValue := .undefined
  request : JsValue := .undefined
  context : JsValue := .undefined

/-- types.ts `DecisionReason`. -/
inductive DecisionReason where
  | EXPLICIT_DENY
  | EXPLICIT_ALLOW
  | DEFAULT_DENY
deriving DecidableEq

/-- types.ts `Decision`. -/
structure Decision where
  allowed : Bool
  reason : DecisionReason
  matchedStatements : List String
deriving DecidableEq

/-- JS object spread `{...v}` into a field list: objects keep their
fields, strings and arrays spread to index-keyed entries, everything
else spreads to nothing. -/
def spreadFields : JsValue → List (String × JsValue)
  | .obj fs => fs
  | .str s => s.data.enum.map (fun p => (toString p.1, .str (String.mk [p.2])))
  | .arr xs => xs.enum.map (fun p => (toString p.1, p.2))
  | _ => []

/-- Setting field `k` of an object literal: overrides the first existing
binding in place, else appends (JS `{...base, k: v}` keeps the original
key position). -/
def setField : List (String × JsValue) → String → JsValue → List (String × JsValue)
  | [], k, v => [(k, v)]
  | f :: rest, k, v => if f.1 == k then (k, v) :: rest else f :: setField rest k v

/-- The `context` entry of the composed lookup view:
`{ ...ctx.context, scope: ctx.context?.scope ?? ctx.scope }`
(conditions/evaluate.ts `getLeft` and utils/vars.ts `resolveValue`). -/
def mergedContext (ctx : AutorixContext) : JsValue :=
  let s := jsFieldGet ctx.context "scope"
  let v := match s with
    | .undefined => ctx.scope
    | .null => ctx.scope
    | other => other
  .obj (setField (spreadFields ctx.context) "scope" v)

/-- The composed object both `getLeft` and `resolveValue` resolve paths
against: `{ principal, resource, request, scope, context: {...} }`. -/
def composed (ctx : AutorixContext) : JsValue :=
  .obj
    [("principal", ctx.principal), ("resource", ctx.resource),
     ("request", ctx.request), ("scope", ctx.scope),
     ("context", mergedContext ctx)]

/-- Match of the variable-template regex `^\$\{(.+)}$` against the
trimmed string (as a char list), returning the captured inner path:
first two chars `${`, last char `}`, nonempty middle, and `.` does not
cross line terminators. -/
def templatePath (cs : List Char) : Option (List Char) :=
  match cs with
  | '$' :: '\x7b' :: rest =>
    match rest.reverse with
    | '\x7d' :: midRev =>
      let mid := midRev.reverse
      if mid.isEmpty then none
      else if mid.any (fun c => isLineTerm c) then none
      else some mid
    | _ => none
  | _ => none

/-- utils/vars.ts `resolveValue`: a string whose trimmed form is a full
`${path}` template resolves the inner (trimmed) path against the
composed context view; any other value is returned unchanged. -/
def resolveValue (value : JsValue) (ctx : AutorixContext) : JsValue :=
  match value with
  | .str s =>
    match templatePath (jsTrim s).data with
    | some inner => getPath (composed ctx) (jsTrim (String.mk inner))
    | none => value
  | v => v

/-- conditions/evaluate.ts `getLeft`: resolve a condition key against the
composed context view. -/
def getLeft (ctx : AutorixContext) (key : String) : JsValue :=
  getPath (composed ctx) key

/-- conditions/evaluate.ts `evalStringEquals`: every entry must satisfy
`String(left) === String(expected)` (array expected: some element);
note both operands are coerced with `String()`. -/
def evalStringEquals (ctx : AutorixContext) (kv : List (String × JsValue)) : Bool :=
  kv.all fun e =>
    let left := getLeft ctx e.1
    match resolveValue e.2 ctx with
    | .arr es => es.any fun x => jsToString left == jsToString x
    | expected => jsToString left == jsToString expected

/-- Whether a JS value is a string, number or boolean
(the `typeof` guard in `evalStringLike`). -/
def isStrNumBool : JsValue → Bool
  | .str _ => true
  | .num _ => true
  | .bool _ => true
  | _ => false

/-- `matchOneOrMany` applied to an array of runtime values cast to
`string[]` (`expected as any` in `evalStringLike`): a non-string element
reaching `wildcardMatch` throws (`pattern.replace` is not a function). -/
def matchJsPatterns : List JsValue → String → Option Bool
  | [], _ => some false
  | .str p :: ps, v =>
    (match wildcardMatch p v with
     | none => none
     | some true => some true
     | some false => matchJsPatterns ps v)
  | _ :: _, _ => none

/-- conditions/evaluate.ts `evalStringLike`: the left operand must be a
string/number/boolean (else the whole comparison is `false`), the
expected value a string or array of patterns for the wildcard engine
(`none` = a thrown exception escapes). -/
def evalStringLike (ctx : AutorixContext) : List (String × JsValue) → Option Bool
  | [] => some true
  | e :: rest =>
    let left := getLeft ctx e.1
    if !isStrNumBool left then some false
    else
      match resolveValue e.2 ctx with
      | .str p =>
        (match wildcardMatch p (jsToString left) with
         | none => none
         | some false => some false
         | some true => evalStringLike ctx rest)
      | .arr es =>
        (match matchJsPatterns es (jsToString left) with
         | none => none
         | some false => some false
         | some true => evalStringLike ctx rest)
      | _ => some false

/-- conditions/evaluate.ts `evalNumericEquals`. -/
def evalNumericEquals (ctx : AutorixContext) (kv : List (String × JsValue)) : Bool :=
  kv.all fun e =>
    match toNumber (getLeft ctx e.1), toNumber (resolveValue e.2 ctx) with
    | some l, some rr => l == rr
    | _, _ => false

/-- conditions/evaluate.ts `evalBool`. -/
def evalBool (ctx : AutorixContext) (kv : List (String × JsValue)) : Bool :=
  kv.all fun e =>
    match toBoolean (getLeft ctx e.1), toBoolean (resolveValue e.2 ctx) with
    | some l, some rr => l == rr
    | _, _ => false

/-- Access `condition.<op>` on the runtime condition object, with
`allEntries(undefined) = []`. -/
def lookupOp (block : ConditionBlock) (op : String) : List (String × JsValue) :=
  match List.find? (fun e => e.1 == op) block with
  | some e => e.2
  | none => []

/-- conditions/evaluate.ts `evaluateConditions`: a missing block is
vacuously true; the four registered operators are checked in order;
any other key of the block is not consulted at all. -/
def evaluateConditions (cond : Option ConditionBlock) (ctx : AutorixContext) : Option Bool :=
  match cond with
  | none => some true
  | some block =>
    if !evalStringEquals ctx (lookupOp block "StringEquals") then some false
    else
      match evalStringLike ctx (lookupOp block "StringLike") with
      | none => none
      | some false => some false
      | some true =>
        if !evalNumericEquals ctx (lookupOp block "NumericEquals") then some false
        else some (evalBool ctx (lookupOp block "Bool"))

/-- Modelled from the spec: `matchAction` lives in the missing
src/packages/core/src/matchers/action.ts.  Per spec §4.1 it applies the
wildcard engine (utils/wildcard.ts `matchOneOrMany`, which is in the
corpus) with OR over the pattern list; an empty list matches nothing. -/
def matchAction (action : String) (pattern : StrOrList) : Option Bool :=
  matchStringList pattern.toList action

/-- Modelled from the spec: `matchResource` lives in the missing
src/packages/core/src/matchers/resource.ts; per spec §4.1 its semantics
are identical to `matchAction`. -/
def matchResource (resource : String) (pattern : StrOrList) : Option Bool :=
  matchStringList pattern.toList resource

/-- validatePolicy.ts `isStringOrStringArray`: a bare string (even the
empty one), or a nonempty array of nonempty strings. -/
def validActionResource : StrOrList → Bool
  | .one _ => true
  | .many l => !l.isEmpty && l.all (fun x => !x.isEmpty)

/-- validatePolicy.ts `OPERATORS`. -/
def OPERATORS : List String := ["StringEquals", "StringLike", "NumericEquals", "Bool"]

/-- validatePolicy.ts `validateConditionBlock`: an unregistered operator
key is a structural error (inner checks skipped); a registered one has
its inner keys checked for emptiness. -/
def validateConditionBlock (cond : Option ConditionBlock) (path : String) : List String :=
  match cond with
  | none => []
  | some block =>
    (block.map fun e =>
      if e.1 ∈ OPERATORS then
        e.2.filterMap fun kv =>
          if kv.1.isEmpty then some (path ++ " has an invalid condition key") else none
      else [path ++ " has invalid operator " ++ e.1]).flatten

/-- validatePolicy.ts `validateStatement` for the runtime-typed model:
the `Effect` check can no longer fail (the model types it), so the
errors are those of `Action`, `Resource` and the condition block. -/
def validateStatement (stmt : Statement) (index : Nat) : List String :=
  let p := "Statement[" ++ toString index ++ "]"
  (if validActionResource stmt.Action then []
   else [p ++ ".Action must be a non-empty string or string array"]) ++
  (if validActionResource stmt.Resource then []
   else [p ++ ".Resource must be a non-empty string or string array"]) ++
  validateConditionBlock stmt.Condition (p ++ ".Condition")

/-- The `forEach` over the statement array in `validatePolicyDocument`,
carrying the positional index. -/
def validateStatements : List Statement → Nat → List String
  | [], _ => []
  | s :: rest, i => validateStatement s i ++ validateStatements rest (i + 1)

/-- validatePolicy.ts `validatePolicyDocument`, returning the error list
(`valid` iff it is empty).  The not-an-object and not-an-array branches
are unrepresentable in the typed model. -/
def validatePolicyDocument (policy : PolicyDocument) : List String :=
  validateStatements policy.Statement 0

/-- evaluate.ts `statementId`: the statement's `Sid`, or the positional
fallback identifier. -/
def statementId (stmt : Statement) (index : Nat) : String :=
  match stmt.Sid with
  | some sid => sid
  | none => "stmt#" ++ toString index

/-- Whether one statement matches the request: action match, then
resource match, then conditions, with JS short-circuiting (`none` = a
thrown exception). -/
def statementMatches (a r : String) (ctx : AutorixContext) (stmt : Statement) : Option Bool :=
  match matchAction a stmt.Action with
  | none => none
  | some false => some false
  | some true =>
    match matchResource r stmt.Resource with
    | none => none
    | some false => some false
    | some true => evaluateConditions stmt.Condition ctx

/-- The statement loop of evaluate.ts: accumulates
`(matchedAllow, matchedDeny)` identifier lists in document order. -/
def scanStatements (a r : String) (ctx : AutorixContext) :
    List Statement → Nat → Option (List String × List String)
  | [], _ => some ([], [])
  | stmt :: rest, i =>
    match statementMatches a r ctx stmt with
    | none => none
    | some false => scanStatements a r ctx rest (i + 1)
    | some true =>
      match scanStatements a r ctx rest (i + 1) with
      | none => none
      | some (al, dn) =>
        some (if stmt.Effect = .Allow then statementId stmt i :: al else al,
              if stmt.Effect = .Deny then statementId stmt i :: dn else dn)

/-- An exception escaping `evaluate`: a policy-validation error
(`AutorixPolicyValidationError` with its error list) or a runtime
exception from the regex engine. -/
inductive EvalError where
  | validation (errors : List String)
  | runtime
deriving DecidableEq

/-- types.ts `EvaluateInput`; `policy` is an `Option` so that the falsy
(null/undefined) document of claim C10 is representable, and the
optional `validate` flag defaults to `true` (`input.validate !== false`). -/
structure EvaluateInput where
  action : String
  resource : String
  policy : Option PolicyDocument
  ctx : AutorixContext
  validate : Bool := true

/-- evaluate.ts `evaluate`: falsy policy → default deny before any
validation; optional schema validation; one pass over the statements;
deny bucket wins, then allow bucket, else default deny. -/
def evaluate (input : EvaluateInput) : Except EvalError Decision :=
  match input.policy with
  | none => .ok ⟨false, .DEFAULT_DENY, []⟩
  | some policy =>
    if input.validate && !(validatePolicyDocument policy).isEmpty then
      .error (.validation (validatePolicyDocument policy))
    else
      match scanStatements input.action input.resource input.ctx policy.Statement 0 with
      | none => .error .runtime
      | some (al, dn) =>
        if !dn.isEmpty then .ok ⟨false, .EXPLICIT_DENY, dn⟩
        else if !al.isEmpty then .ok ⟨true, .EXPLICIT_ALLOW, al⟩
        else .ok ⟨false, .DEFAULT_DENY, []⟩

/-- evaluateAll.ts `EvaluateAllInput` (null/undefined entries allowed). -/
structure EvaluateAllInput where
  action : String
  resource : String
  policies : List (Option PolicyDocument)
  ctx : AutorixContext

/-- The document loop of evaluateAll.ts, carrying the `sawAllow` flag and
the accumulated matched-statement ids. -/
def evaluateAllGo (a r : String) (ctx : AutorixContext) :
    List (Option PolicyDocument) → Bool → List String → Except EvalError Decision
  | [], sawAllow, acc =>
    if sawAllow then .ok ⟨true, .EXPLICIT_ALLOW, acc⟩
    else .ok ⟨false, .DEFAULT_DENY, acc⟩
  | none :: rest, sawAllow, acc => evaluateAllGo a r ctx rest sawAllow acc
  | some policy :: rest, sawAllow, acc =>
    match evaluate ⟨a, r, some policy, ctx, true⟩ with
    | .error e => .error e
    | .ok d =>
      let acc' := acc ++ d.matchedStatements
      if d.reason = .EXPLICIT_DENY then .ok ⟨false, .EXPLICIT_DENY, acc'⟩
      else evaluateAllGo a r ctx rest (sawAllow || d.reason = .EXPLICIT_ALLOW) acc'

/-- evaluateAll.ts `evaluateAll`: deny in any document short-circuits;
otherwise any allow wins; otherwise default deny; matched ids are
accumulated across documents. -/
def evaluateAll (input : EvaluateAllInput) : Except EvalError Decision :=
  evaluateAllGo input.action input.resource input.ctx input.policies false []

/-- storage types.ts `AutorixScope` (the scope type modelled as a string;
the TS union is string-valued). -/
structure AutorixScope where
  type : String
  id : Option String := none

/-- storage types.ts `PrincipalType`. -/
inductive PrincipalType where
  | USER
  | ROLE
  | GROUP
deriving DecidableEq

/-- storage types.ts `PrincipalRef`. -/
structure PrincipalRef where
  type : PrincipalType
  id : String

/-- memory provider `sameScope`: equal type and
`(a.id ?? null) === (b.id ?? null)` (absent ids compare equal). -/
def sameScope (a b : AutorixScope) : Bool :=
  a.type == b.type && a.id == b.id

/-- memory provider `PolicyRecord`. -/
structure PolicyRecord where
  id : String
  scope : AutorixScope
  document : PolicyDocument

/-- memory provider `Attachment`. -/
structure Attachment where
  policyId : String
  scope : AutorixScope
  principalType : PrincipalType
  principalId : String

/-- The state of a `MemoryPolicyProvider`: the policy `Map` (modelled as
an insertion-ordered association list keyed by `id`) and the attachment
array. -/
structure MemoryPolicyProvider where
  policies : List PolicyRecord := []
  attachments : List Attachment := []

/-- `Map.set` semantics on the policy list: replace in place on an
existing id, else append. -/
def mapSet : List PolicyRecord → PolicyRecord → List PolicyRecord
  | [], q => [q]
  | x :: xs, q => if x.id == q.id then q :: xs else x :: mapSet xs q

/-- `MemoryPolicyProvider.addPolicy` (replaces an existing id). -/
def addPolicy (p : MemoryPolicyProvider) (q : PolicyRecord) : MemoryPolicyProvider :=
  { p with policies := mapSet p.policies q }

/-- `MemoryPolicyProvider.attachPolicy` (appends an attachment row). -/
def attachPolicy (p : MemoryPolicyProvider) (policyId : String) (scope : AutorixScope)
    (principal : PrincipalRef) : MemoryPolicyProvider :=
  { p with attachments := p.attachments ++ [⟨policyId, scope, principal.type, principal.id⟩] }

/-- storage provider `GetPoliciesInput` (`roleIds ?? []`, `groupIds ?? []`). -/
structure GetPoliciesInput where
  scope : AutorixScope
  principal : PrincipalRef
  roleIds : List String := []
  groupIds : List String := []

/-- storage provider `PolicySource`. -/
structure PolicySource where
  id : String
  document : PolicyDocument

/-- The candidate principal set of `getPolicies`: the principal itself,
each role id as a ROLE, each group id as a GROUP. -/
def principalsToMatch (q : GetPoliciesInput) : List PrincipalRef :=
  q.principal ::
    (q.roleIds.map (fun i => ⟨.ROLE, i⟩) ++ q.groupIds.map (fun i => ⟨.GROUP, i⟩))

/-- Whether one attachment row is selected by the query: exact scope
equality and a principal-set hit. -/
def attMatches (q : GetPoliciesInput) (att : Attachment) : Bool :=
  sameScope att.scope q.scope &&
    (principalsToMatch q).any (fun p => p.type == att.principalType && p.id == att.principalId)

/-- JS `Set` insertion over a list: keep the first occurrence of each
element, in first-insertion order. -/
def dedupGo (seen : List String) : List String → List String
  | [] => []
  | x :: xs => if x ∈ seen then dedupGo seen xs else x :: dedupGo (x :: seen) xs

/-- `Map.get` on the policy list: the first (unique) record with the id. -/
def lookupPolicy (l : List PolicyRecord) (pid : String) : Option PolicyRecord :=
  l.find? (fun q => q.id == pid)

/-- The reverse policy lookup of `getPolicies`: resolve one matched
policy id, defensively discarding a record whose stored scope
mismatches the query scope. -/
def policyLookupStep (p : MemoryPolicyProvider) (q : GetPoliciesInput) (pid : String) :
    Option PolicySource :=
  match lookupPolicy p.policies pid with
  | none => none
  | some rcd =>
    if sameScope rcd.scope q.scope then some ⟨rcd.id, rcd.document⟩ else none

/-- `MemoryPolicyProvider.getPolicies` (continued): the dedup'd id list
mapped through the reverse lookup. -/
def getPolicies (p : MemoryPolicyProvider) (q : GetPoliciesInput) : List PolicySource :=
  (dedupGo [] ((p.attachments.filter (attMatches q)).map (fun att => att.policyId))).filterMap
    (policyLookupStep p q)

/-- The matching-deny-statement identifiers of a statement list, in
document order, starting at positional index `i` (the reference value
for `evaluate`'s deny bucket). -/
def denyIdsFrom (a r : String) (ctx : AutorixContext) :
    List Statement → Nat → List String
  | [], _ => []
  | s :: rest, i =>
    if statementMatches a r ctx s = some true ∧ s.Effect = .Deny
    then statementId s i :: denyIdsFrom a r ctx rest (i + 1)
    else denyIdsFrom a r ctx rest (i + 1)

/-- The matching-allow-statement identifiers, in document order. -/
def allowIdsFrom (a r : String) (ctx : AutorixContext) :
    List Statement → Nat → List String
  | [], _ => []
  | s :: rest, i =>
    if statementMatches a r ctx s = some true ∧ s.Effect = .Allow
    then statementId s i :: allowIdsFrom a r ctx rest (i + 1)
    else allowIdsFrom a r ctx rest (i + 1)

/-- The identifiers of the matching Deny statements of a document. -/
def matchedDenyIds (a r : String) (ctx : AutorixContext) (policy : PolicyDocument) :
    List String :=
  denyIdsFrom a r ctx policy.Statement 0

/-- Spec-side wildcard semantics, written from the claim: a pattern
matches a value iff the value decomposes so that each `*` stands for an
arbitrary (possibly empty) substring, anchored at both ends, with exact
case-sensitive comparison of every non-`*` pattern character. -/
inductive GlobSpec : List Char → List Char → Prop where
  | nil : GlobSpec [] []
  | lit (c : Char) (p s : List Char) : c ≠ '*' → GlobSpec p s → GlobSpec (c :: p) (c :: s)
  | star (p u t : List Char) : GlobSpec p t → GlobSpec ('*' :: p) (u ++ t)

/-- All suffixes of a character list. -/
def tails : List Char → List (List Char)
  | [] => [[]]
  | c :: s => (c :: s) :: tails s

/-- Executable spec-side glob matcher (the decision procedure for
`GlobSpec`'s language). -/
def globMatchB : List Char → List Char → Bool
  | [], [] => true
  | [], _ :: _ => false
  | c :: p, s =>
    if c = '*' then (tails s).any (fun t => globMatchB p t)
    else
      match s with
      | [] => false
      | x :: s' => c == x && globMatchB p s'

/-- Spec-side characterization of one `StringEquals` entry as the code
actually decides it: `String()`-coerced equality of the context value
against the resolved expected value (some element, for an array). -/
def stringEqSpecEntry (ctx : AutorixContext) (e : String × JsValue) : Prop :=
  match resolveValue e.2 ctx with
  | .arr es => ∃ x ∈ es, jsToString (getLeft ctx e.1) = jsToString x
  | other => jsToString (getLeft ctx e.1) = jsToString other

/-- A context with every field absent. -/
def emptyCtx : AutorixContext := {}

/-- The allow-all statement of the multi-policy short-circuit scenario. -/
def allowAllStmt : Statement :=
  { Sid := some "allow-all", Effect := .Allow, Action := .one "*", Resource := .one "*" }

/-- The allow-all document of the multi-policy short-circuit scenario. -/
def allowAllDoc : PolicyDocument := ⟨none, [allowAllStmt]⟩

/-- The deny-if-sensitive statement: denies resources under
`sensitive/` for any action. -/
def denySensitiveStmt : Statement :=
  { Sid := some "deny-sensitive", Effect := .Deny, Action := .one "*",
    Resource := .one "sensitive/*" }

/-- The deny-if-sensitive document of the multi-policy short-circuit
scenario. -/
def denySensitiveDoc : PolicyDocument := ⟨none, [denySensitiveStmt]⟩

/-- A policy whose single statement matches everything under the
condition `StringEquals { 'principal.flag': 'true' }`. -/
def coercePolicy : PolicyDocument :=
  ⟨none, [{ Sid := some "coerce", Effect := .Allow, Action := .one "*", Resource := .one "*",
            Condition := some [("StringEquals", [("principal.flag", .str "true")])] }]⟩

/-- A context whose `principal.flag` is the boolean `true` (not a
string). -/
def coerceCtx : AutorixContext :=
  { principal := .obj [("id", .str "u1"), ("flag", .bool true)] }

/-- A statement carrying a condition block keyed by the unregistered
operator name `StringEqualsFoo`. -/
def unknownOpStmt : Statement :=
  { Sid := some "unknown-op", Effect := .Allow, Action := .one "*", Resource := .one "*",
    Condition := some [("StringEqualsFoo", [("principal.id", .str "x")])] }

/-- A policy whose single statement carries a condition block keyed by
the unregistered operator name `StringEqualsFoo`. -/
def unknownOpPolicy : PolicyDocument := ⟨none, [unknownOpStmt]⟩

/-- The ownership statement of the variable-resolution round-trip:
`StringEquals` comparing `resource.ownerId` against the template
resolving `principal.id`, on an otherwise all-matching Allow statement
(no `Sid`, so its identifier is `stmt#0`). -/
def ownerStmt : Statement :=
  { Effect := .Allow, Action := .one "*", Resource := .one "*",
    Condition := some [("StringEquals",
      [("resource.ownerId", .str "$\x7bprincipal.id\x7d")])] }

/-- The ownership policy of the variable-resolution round-trip. -/
def ownerPolicy : PolicyDocument := ⟨none, [ownerStmt]⟩

/-- A context where `resource.ownerId` is the number `42` while
`principal.id` is the string `"42"`: strictly unequal, equal after
`String()` coercion. -/
def coercedOwnerCtx : AutorixContext :=
  { principal := .obj [("id", .str "42")],
    resource := .obj [("ownerId", .num 42)] }

/-- The TENANT scope with the given tenant id. -/
def tenantScope (t : String) : AutorixScope := ⟨"TENANT", some t⟩

/-- A provider holding one policy attached to USER `u1` under scope
`{TENANT, t1}` only. -/
def scopedProvider : MemoryPolicyProvider :=
  attachPolicy (addPolicy {} ⟨"p1", tenantScope "t1", allowAllDoc⟩)
    "p1" (tenantScope "t1") ⟨.USER, "u1"⟩

/-- An unconditional Allow statement matching action `doc:read` on
resource `file/1`. -/
def bothAllowStmt : Statement :=
  { Sid := some "A", Effect := .Allow, Action := .one "doc:*", Resource := .one "file/1" }

/-- An unconditional Deny statement matching action `doc:read` on any
resource. -/
def bothDenyStmt : Statement :=
  { Sid := some "D", Effect := .Deny, Action := .one "doc:read", Resource := .one "*" }

/-- A document with an unconditional Allow and an unconditional Deny
statement that both match action `doc:read` on resource `file/1`. -/
def bothDoc : PolicyDocument := ⟨none, [bothAllowStmt, bothDenyStmt]⟩

/-- A document whose single statement matches neither the witness action
nor resource. -/
def noMatchDoc : PolicyDocument :=
  ⟨none, [{ Sid := some "N", Effect := .Allow, Action := .one "x:y", Resource := .one "z" }]⟩

/-- A context where `resource.ownerId` and `principal.id` are the same
string. -/
def ownerOkCtx : AutorixContext :=
  { principal := .obj [("id", .str "u1")],
    resource := .obj [("ownerId", .str "u1")] }

theorem scanStatements_eq (a r : String) (ctx : AutorixContext) :
    ∀ (stmts : List Statement) (i : Nat) (al dn : List String),
      scanStatements a r ctx stmts i = some (al, dn) →
      al = allowIdsFrom a r ctx stmts i ∧ dn = denyIdsFrom a r ctx stmts i := by
  intro stmts
  induction stmts with
  | nil =>
    intro i al dn h
    simp only [scanStatements, Option.some.injEq, Prod.mk.injEq] at h
    simp [allowIdsFrom, denyIdsFrom, ← h.1, ← h.2]
  | cons s rest ih =>
    intro i al dn h
    simp only [scanStatements] at h
    cases hm : statementMatches a r ctx s with
    | none => rw [hm] at h; exact absurd h (by simp)
    | some b =>
      rw [hm] at h
      cases b with
      | false =>
        simp only at h
        obtain ⟨h1, h2⟩ := ih (i + 1) al dn h
        constructor
        · rw [allowIdsFrom, if_neg (by simp [hm]), ← h1]
        · rw [denyIdsFrom, if_neg (by simp [hm]), ← h2]
      | true =>
        simp only at h
        cases hr : scanStatements a r ctx rest (i + 1) with
        | none => rw [hr] at h; exact absurd h (by simp)
        | some pr =>
          rw [hr] at h
          obtain ⟨al', dn'⟩ := pr
          simp only [Option.some.injEq, Prod.mk.injEq] at h
          obtain ⟨h1, h2⟩ := ih (i + 1) al' dn' hr
          constructor
          · rw [← h.1, h1, allowIdsFrom]
            by_cases he : s.Effect = .Allow
            · rw [if_pos he, if_pos ⟨hm, he⟩]
            · rw [if_neg he, if_neg (by simp [he])]
          · rw [← h.2, h2, denyIdsFrom]
            by_cases he : s.Effect = .Deny
            · rw [if_pos he, if_pos ⟨hm, he⟩]
            · rw [if_neg he, if_neg (by simp [he])]

theorem denyIdsFrom_ne_nil (a r : String) (ctx : AutorixContext) (s : Statement) :
    ∀ (stmts : List Statement) (i : Nat), s ∈ stmts → s.Effect = .Deny →
      statementMatches a r ctx s = some true →
      denyIdsFrom a r ctx stmts i ≠ [] := by
  intro stmts
  induction stmts with
  | nil => intro i hmem; simp at hmem
  | cons t rest ih =>
    intro i hmem he hm
    rw [denyIdsFrom]
    rcases List.mem_cons.mp hmem with rfl | hmem'
    · rw [if_pos ⟨hm, he⟩]; simp
    · by_cases hc : statementMatches a r ctx t = some true ∧ t.Effect = .Deny
      · rw [if_pos hc]; simp
      · rw [if_neg hc]; exact ih (i + 1) hmem' he hm

theorem scanStatements_no_match (a r : String) (ctx : AutorixContext) :
    ∀ (stmts : List Statement) (i : Nat),
      (∀ s ∈ stmts, statementMatches a r ctx s = some false) →
      scanStatements a r ctx stmts i = some ([], []) := by
  intro stmts
  induction stmts with
  | nil => intro i _; rfl
  | cons s rest ih =>
    intro i h
    rw [scanStatements, h s (List.mem_cons_self s rest)]
    exact ih (i + 1) (fun t ht => h t (List.mem_cons_of_mem s ht))

theorem evaluate_no_match (a r : String) (ctx : AutorixContext) (doc : PolicyDocument)
    (v : Bool) (hval : validatePolicyDocument doc = [])
    (hno : ∀ s ∈ doc.Statement, statementMatches a r ctx s = some false) :
    evaluate ⟨a, r, some doc, ctx, v⟩ = .ok ⟨false, .DEFAULT_DENY, []⟩ := by
  rw [evaluate]
  simp only [hval, List.isEmpty_nil, Bool.not_true, Bool.and_false, Bool.false_eq_true,
    if_false, scanStatements_no_match a r ctx doc.Statement 0 hno]

theorem evaluate_allowed_iff (input : EvaluateInput) (d : Decision)
    (h : evaluate input = .ok d) :
    d.allowed = true ↔ d.reason = .EXPLICIT_ALLOW := by
  rw [evaluate] at h
  split at h
  · obtain rfl : (⟨false, .DEFAULT_DENY, []⟩ : Decision) = d := by
      simpa using h
    simp
  · split at h
    · exact absurd h (by simp)
    · split at h
      · exact absurd h (by simp)
      · split at h
        · obtain rfl : Decision.mk false .EXPLICIT_DENY _ = d := by simpa using h
          simp
        · split at h
          · obtain rfl : Decision.mk true .EXPLICIT_ALLOW _ = d := by simpa using h
            simp
          · obtain rfl : (⟨false, .DEFAULT_DENY, []⟩ : Decision) = d := by simpa using h
            simp

theorem evaluateAllGo_allowed_iff (a r : String) (ctx : AutorixContext) :
    ∀ (ps : List (Option PolicyDocument)) (sawAllow : Bool) (acc : List String)
      (d : Decision), evaluateAllGo a r ctx ps sawAllow acc = .ok d →
      (d.allowed = true ↔ d.reason = .EXPLICIT_ALLOW) := by
  intro ps
  induction ps with
  | nil =>
    intro sawAllow acc d h
    rw [evaluateAllGo] at h
    split at h
    · obtain rfl : Decision.mk true .EXPLICIT_ALLOW acc = d := by simpa using h
      simp
    · obtain rfl : Decision.mk false .DEFAULT_DENY acc = d := by simpa using h
      simp
  | cons p rest ih =>
    intro sawAllow acc d h
    cases p with
    | none => exact ih _ _ d (by rwa [evaluateAllGo] at h)
    | some policy =>
      rw [evaluateAllGo] at h
      split at h
      · exact absurd h (by simp)
      · split at h
        · obtain rfl : Decision.mk false .EXPLICIT_DENY _ = d := by simpa using h
          simp
        · exact ih _ _ d h

theorem mem_dedupGo (y : String) :
    ∀ (l seen : List String), y ∈ dedupGo seen l ↔ (y ∈ l ∧ y ∉ seen) := by
  intro l
  induction l with
  | nil => intro seen; simp [dedupGo]
  | cons x xs ih =>
    intro seen
    rw [dedupGo]
    by_cases hx : x ∈ seen
    · rw [if_pos hx, ih seen]
      constructor
      · exact fun ⟨h1, h2⟩ => ⟨List.mem_cons_of_mem x h1, h2⟩
      · rintro ⟨h1, h2⟩
        rcases List.mem_cons.mp h1 with rfl | h1'
        · exact absurd hx h2
        · exact ⟨h1', h2⟩
    · rw [if_neg hx]
      constructor
      · intro h
        rcases List.mem_cons.mp h with rfl | h'
        · exact ⟨List.mem_cons_self y xs, hx⟩
        · obtain ⟨h1, h2⟩ := (ih (x :: seen)).mp h'
          exact ⟨List.mem_cons_of_mem x h1,
            fun hc => h2 (List.mem_cons_of_mem x hc)⟩
      · rintro ⟨h1, h2⟩
        rcases List.mem_cons.mp h1 with rfl | h1'
        · exact List.mem_cons_self y _
        · by_cases hyx : y = x
          · subst hyx; exact List.mem_cons_self y _
          · exact List.mem_cons_of_mem x
              ((ih (x :: seen)).mpr ⟨h1',
                fun hc => (List.mem_cons.mp hc).elim hyx h2⟩)

theorem nodup_dedupGo : ∀ (l seen : List String), (dedupGo seen l).Nodup := by
  intro l
  induction l with
  | nil => intro seen; simp [dedupGo]
  | cons x xs ih =>
    intro seen
    rw [dedupGo]
    by_cases hx : x ∈ seen
    · rw [if_pos hx]; exact ih seen
    · rw [if_neg hx]
      refine List.nodup_cons.mpr ⟨fun hc => ?_, ih (x :: seen)⟩
      exact ((mem_dedupGo x xs (x :: seen)).mp hc).2 (List.mem_cons_self x seen)

theorem mem_getPolicies (p : MemoryPolicyProvider) (q : GetPoliciesInput)
    (ps : PolicySource) :
    ps ∈ getPolicies p q ↔
      ∃ att ∈ p.attachments, attMatches q att = true ∧
        ∃ rcd, lookupPolicy p.policies att.policyId = some rcd ∧
          sameScope rcd.scope q.scope = true ∧ ps = ⟨rcd.id, rcd.document⟩ := by
  rw [getPolicies]
  rw [List.mem_filterMap]
  constructor
  · rintro ⟨pid, hpid, hf⟩
    obtain ⟨hmem, -⟩ := (mem_dedupGo pid _ []).mp hpid
    obtain ⟨att, hatt, rfl⟩ := List.mem_map.mp hmem
    obtain ⟨hattmem, hmatch⟩ := List.mem_filter.mp hatt
    refine ⟨att, hattmem, hmatch, ?_⟩
    rw [policyLookupStep] at hf
    split at hf
    · exact absurd hf (by simp)
    · rename_i rcd hl
      split at hf
      · rename_i hs
        exact ⟨rcd, hl, hs, by simpa using hf.symm⟩
      · exact absurd hf (by simp)
  · rintro ⟨att, hattmem, hmatch, rcd, hl, hs, rfl⟩
    refine ⟨att.policyId, ?_, ?_⟩
    · refine (mem_dedupGo att.policyId _ []).mpr ⟨?_, by simp⟩
      exact List.mem_map.mpr ⟨att, List.mem_filter.mpr ⟨hattmem, hmatch⟩, rfl⟩
    · simp [policyLookupStep, hl, hs]

theorem lookupPolicy_id (l : List PolicyRecord) (pid : String) (rcd : PolicyRecord)
    (h : lookupPolicy l pid = some rcd) : rcd.id = pid := by
  have := List.find?_some h
  simpa using this

theorem nodup_ids_filterMap (f : String → Option PolicySource)
    (hf : ∀ pid ps, f pid = some ps → ps.id = pid) :
    ∀ (l : List String), l.Nodup → ((l.filterMap f).map (fun ps => ps.id)).Nodup := by
  intro l
  induction l with
  | nil => intro _; simp
  | cons pid rest ih =>
    intro hnd
    obtain ⟨hnotin, hnd'⟩ := List.nodup_cons.mp hnd
    rw [List.filterMap_cons]
    cases hp : f pid with
    | none => exact ih hnd'
    | some ps =>
      rw [List.map_cons]
      refine List.nodup_cons.mpr ⟨?_, ih hnd'⟩
      intro hc
      obtain ⟨ps', hps', hid⟩ := List.mem_map.mp hc
      obtain ⟨pid', hpid', hf'⟩ := List.mem_filterMap.mp hps'
      have e1 : ps'.id = pid' := hf pid' ps' hf'
      have e2 : ps.id = pid := hf pid ps hp
      rw [e1, e2] at hid
      exact hnotin (hid ▸ hpid')

theorem getPolicies_ids_nodup (p : MemoryPolicyProvider) (q : GetPoliciesInput) :
    ((getPolicies p q).map (fun ps => ps.id)).Nodup := by
  rw [getPolicies]
  refine nodup_ids_filterMap _ ?_ _ (nodup_dedupGo _ [])
  intro pid ps h
  rw [policyLookupStep] at h
  split at h
  · exact absurd h (by simp)
  · rename_i rcd hl
    split at h
    · obtain rfl : PolicySource.mk rcd.id rcd.document = ps := by simpa using h
      exact lookupPolicy_id p.policies pid rcd hl
    · exact absurd h (by simp)

theorem suffix_mem_tails (t : List Char) : ∀ u, t ∈ tails (u ++ t) := by
  intro u
  induction u with
  | nil =>
    cases t with
    | nil => simp [tails]
    | cons c s => simp [tails]
  | cons c u' ih =>
    rw [List.cons_append, tails]
    exact List.mem_cons_of_mem _ ih

theorem globSpec_globMatchB {p s : List Char} (h : GlobSpec p s) :
    globMatchB p s = true := by
  induction h with
  | nil => rfl
  | lit c p s hne _ ih =>
    rw [globMatchB.eq_def]
    simp only [if_neg hne]
    simp [ih]
  | star p u t _ ih =>
    rw [globMatchB.eq_def]
    simp only [if_pos rfl]
    exact List.any_eq_true.mpr ⟨t, suffix_mem_tails t u, ih⟩

theorem stringEqEntry_iff (ctx : AutorixContext) (e : String × JsValue) :
    ((match resolveValue e.2 ctx with
      | .arr es => es.any fun x => jsToString (getLeft ctx e.1) == jsToString x
      | expected => jsToString (getLeft ctx e.1) == jsToString expected) = true) ↔
      stringEqSpecEntry ctx e := by
  rw [stringEqSpecEntry]
  cases resolveValue e.2 ctx <;>
    simp [List.any_eq_true]

/-- C10: for every action, resource, context and validate flag, calling
`evaluate` with a null/undefined (falsy) policy document returns
`{allowed: false, reason: DEFAULT_DENY, matchedStatements: []}` without
throwing; the null check precedes validation, so the result holds even
with validation enabled and no validation error is raised. -/
theorem null_policy_default_deny (a r : String) (ctx : AutorixContext) (v : Bool) :
    evaluate ⟨a, r, none, ctx, v⟩ = .ok ⟨false, .DEFAULT_DENY, []⟩ := rfl

/-- C3: every Decision produced by `evaluate` or `evaluateAll` (on any
input on which they return rather than throw) has `allowed = true` if
and only if `reason = EXPLICIT_ALLOW`; both deny reasons carry
`allowed = false`. -/
theorem decision_allowed_iff_reason :
    (∀ (input : EvaluateInput) (d : Decision), evaluate input = .ok d →
      (d.allowed = true ↔ d.reason = .EXPLICIT_ALLOW)) ∧
    (∀ (input : EvaluateAllInput) (d : Decision), evaluateAll input = .ok d →
      (d.allowed = true ↔ d.reason = .EXPLICIT_ALLOW)) := by
  refine ⟨evaluate_allowed_iff, ?_⟩
  intro input d h
  rw [evaluateAll] at h
  exact evaluateAllGo_allowed_iff _ _ _ _ _ _ _ h

/-- Witness for C3 at a concrete input (the null-policy default deny). -/
theorem decision_allowed_iff_reason_witness :
    evaluate ⟨"doc:read", "file/1", none, emptyCtx, true⟩ =
        .ok ⟨false, .DEFAULT_DENY, []⟩ ∧
      ((false = true) ↔ (DecisionReason.DEFAULT_DENY = .EXPLICIT_ALLOW)) :=
  ⟨rfl, decision_allowed_iff_reason.1 ⟨"doc:read", "file/1", none, emptyCtx, true⟩
    ⟨false, .DEFAULT_DENY, []⟩ rfl⟩

/-- C1: whenever an unconditional Deny statement and an unconditional
Allow statement of a document both match the requested (action,
resource) — the hypotheses only use statement membership, so the
statements' positions in the document are irrelevant — and the
evaluation call returns (rather than throws), its Decision is
`{allowed: false, reason: EXPLICIT_DENY}` and `matchedStatements` is
exactly the identifier list of the matching Deny statements (allow
identifiers are discarded, not merged). -/
theorem deny_overrides_allow (a r : String) (ctx : AutorixContext)
    (doc : PolicyDocument) (v : Bool) (d : Decision)
    (hok : evaluate ⟨a, r, some doc, ctx, v⟩ = .ok d)
    (hdeny : ∃ s ∈ doc.Statement, s.Effect = .Deny ∧ s.Condition = none ∧
      matchAction a s.Action = some true ∧ matchResource r s.Resource = some true)
    (_hallow : ∃ s ∈ doc.Statement, s.Effect = .Allow ∧ s.Condition = none ∧
      matchAction a s.Action = some true ∧ matchResource r s.Resource = some true) :
    d = ⟨false, .EXPLICIT_DENY, matchedDenyIds a r ctx doc⟩ := by
  obtain ⟨s, hs, he, hc, hma, hmr⟩ := hdeny
  have hm : statementMatches a r ctx s = some true := by
    rw [statementMatches, hma, hmr, hc]
    rfl
  simp only [evaluate] at hok
  split at hok
  · exact absurd hok (by simp)
  · cases hscan : scanStatements a r ctx doc.Statement 0 with
    | none => rw [hscan] at hok; exact absurd hok (by simp)
    | some pr =>
      obtain ⟨al, dn⟩ := pr
      rw [hscan] at hok
      obtain ⟨-, hdn⟩ := scanStatements_eq a r ctx doc.Statement 0 al dn hscan
      have hne : dn ≠ [] := by
        rw [hdn]
        exact denyIdsFrom_ne_nil a r ctx s doc.Statement 0 hs he hm
      have hbe : dn.isEmpty = false := by
        cases dn with
        | nil => exact absurd rfl hne
        | cons x xs => rfl
      simp only [hbe, Bool.not_false, if_true] at hok
      obtain rfl : Decision.mk false .EXPLICIT_DENY dn = d := by simpa using hok
      rw [matchedDenyIds, ← hdn]

/-- Witness for C1 at a concrete two-statement document. -/
theorem deny_overrides_allow_witness :
    (⟨false, .EXPLICIT_DENY, ["D"]⟩ : Decision) =
      ⟨false, .EXPLICIT_DENY, matchedDenyIds "doc:read" "file/1" emptyCtx bothDoc⟩ := by
  refine deny_overrides_allow "doc:read" "file/1" emptyCtx bothDoc true
    ⟨false, .EXPLICIT_DENY, ["D"]⟩ rfl ?_ ?_
  · exact ⟨bothDenyStmt, by simp [bothDoc], rfl, rfl, rfl, rfl⟩
  · exact ⟨bothAllowStmt, by simp [bothDoc], rfl, rfl, rfl, rfl⟩

theorem evaluateAllGo_no_match (a r : String) (ctx : AutorixContext) :
    ∀ (ps : List (Option PolicyDocument)) (acc : List String),
      (∀ doc, some doc ∈ ps → validatePolicyDocument doc = [] ∧
        ∀ s ∈ doc.Statement, statementMatches a r ctx s = some false) →
      evaluateAllGo a r ctx ps false acc = .ok ⟨false, .DEFAULT_DENY, acc⟩ := by
  intro ps
  induction ps with
  | nil => intro acc _; rfl
  | cons p rest ih =>
    intro acc h
    cases p with
    | none =>
      rw [evaluateAllGo]
      exact ih acc (fun doc hd => h doc (List.mem_cons_of_mem _ hd))
    | some doc =>
      obtain ⟨hval, hno⟩ := h doc (List.mem_cons_self _ _)
      rw [evaluateAllGo, evaluate_no_match a r ctx doc true hval hno]
      simp only [List.append_nil]
      exact ih acc (fun doc' hd => h doc' (List.mem_cons_of_mem _ hd))

/-- C2: when no statement of any supplied (and schema-valid) document
matches the request — action match, resource match and condition all
holding — `evaluateAll` returns exactly
`{allowed: false, reason: DEFAULT_DENY, matchedStatements: []}`, and so
does `evaluate` on a single document with no matching statement. -/
theorem default_deny_no_match :
    (∀ (a r : String) (ctx : AutorixContext) (doc : PolicyDocument) (v : Bool),
      validatePolicyDocument doc = [] →
      (∀ s ∈ doc.Statement, statementMatches a r ctx s = some false) →
      evaluate ⟨a, r, some doc, ctx, v⟩ = .ok ⟨false, .DEFAULT_DENY, []⟩) ∧
    (∀ (a r : String) (ctx : AutorixContext) (ps : List (Option PolicyDocument)),
      (∀ doc, some doc ∈ ps → validatePolicyDocument doc = [] ∧
        ∀ s ∈ doc.Statement, statementMatches a r ctx s = some false) →
      evaluateAll ⟨a, r, ps, ctx⟩ = .ok ⟨false, .DEFAULT_DENY, []⟩) := by
  refine ⟨evaluate_no_match, ?_⟩
  intro a r ctx ps h
  rw [evaluateAll]
  exact evaluateAllGo_no_match a r ctx ps [] h

/-- Witness for C2 at a concrete non-matching document (plus a null
entry for `evaluateAll`). -/
theorem default_deny_no_match_witness :
    evaluate ⟨"doc:read", "file/1", some noMatchDoc, emptyCtx, true⟩ =
        .ok ⟨false, .DEFAULT_DENY, []⟩ ∧
      evaluateAll ⟨"doc:read", "file/1", [some noMatchDoc, none], emptyCtx⟩ =
        .ok ⟨false, .DEFAULT_DENY, []⟩ := by
  constructor
  · refine default_deny_no_match.1 "doc:read" "file/1" emptyCtx noMatchDoc true rfl ?_
    intro s hs
    simp only [noMatchDoc] at hs
    simp only [List.mem_singleton] at hs
    subst hs
    rfl
  · refine default_deny_no_match.2 "doc:read" "file/1" emptyCtx [some noMatchDoc, none] ?_
    intro doc hd
    simp at hd
    subst hd
    refine ⟨rfl, ?_⟩
    intro s hs
    simp only [noMatchDoc, List.mem_singleton] at hs
    subst hs
    rfl

theorem evaluate_allowAllDoc (a r : String) (ctx : AutorixContext) :
    evaluate ⟨a, r, some allowAllDoc, ctx, true⟩ =
      .ok ⟨true, .EXPLICIT_ALLOW, ["allow-all"]⟩ := rfl

theorem statementMatches_nocond (a r : String) (ctx : AutorixContext)
    (sid : Option String) (e : Effect) (pa pr : StrOrList)
    (hma : matchAction a pa = some true) :
    statementMatches a r ctx ⟨sid, e, pa, pr, none⟩ = matchResource r pr := by
  rw [statementMatches, hma]
  cases hmr : matchResource r pr with
  | none => rfl
  | some bb => cases bb <;> rfl

theorem evaluate_denySensitiveDoc (a r : String) (ctx : AutorixContext) (b : Bool)
    (hr : matchResource r (.one "sensitive/*") = some b) :
    evaluate ⟨a, r, some denySensitiveDoc, ctx, true⟩ =
      .ok (if b then ⟨false, .EXPLICIT_DENY, ["deny-sensitive"]⟩
           else ⟨false, .DEFAULT_DENY, []⟩) := by
  have hsm : statementMatches a r ctx denySensitiveStmt = some b := by
    have h1 := statementMatches_nocond a r ctx (some "deny-sensitive") .Deny
      (.one "*") (.one "sensitive/*") rfl
    rw [show denySensitiveStmt =
      (⟨some "deny-sensitive", .Deny, .one "*", .one "sensitive/*", none⟩ : Statement) from rfl]
    rw [h1, hr]
  have hscan : scanStatements a r ctx denySensitiveDoc.Statement 0 =
      some (if b then ([], ["deny-sensitive"]) else ([], [])) := by
    rw [show denySensitiveDoc.Statement = [denySensitiveStmt] from rfl]
    rw [scanStatements, hsm]
    cases b
    · rfl
    · rfl
  rw [evaluate]
  simp only
  rw [show validatePolicyDocument denySensitiveDoc = [] from rfl]
  simp only [List.isEmpty_nil, Bool.not_true, Bool.and_false, Bool.false_eq_true, if_false]
  rw [hscan]
  cases b
  · rfl
  · rfl

/-- C4 counterexample: on a sensitive resource the two-document scenario
does deny, but `matchedStatements` also contains the allow id
accumulated from the first (allow-all) document — not only the deny
statement id of the second document, as the claim states. -/
theorem short_circuit_cex :
    evaluateAll ⟨"doc:read", "sensitive/1", [some allowAllDoc, some denySensitiveDoc],
        emptyCtx⟩ =
      .ok ⟨false, .EXPLICIT_DENY, ["allow-all", "deny-sensitive"]⟩ ∧
    (["allow-all", "deny-sensitive"] : List String) ≠ ["deny-sensitive"] :=
  ⟨rfl, by simp⟩

/-- C4 amended: on a non-sensitive resource the two-document list
allows; on a sensitive resource the deny returned by the second
document is final — later documents are never evaluated (the result is
independent of any `rest`) — but `matchedStatements` carries the
already-accumulated allow id of the first document followed by the deny
id of the second. -/
theorem short_circuit_amended (a r : String) (ctx : AutorixContext) :
    (matchResource r (.one "sensitive/*") = some false →
      evaluateAll ⟨a, r, [some allowAllDoc, some denySensitiveDoc], ctx⟩ =
        .ok ⟨true, .EXPLICIT_ALLOW, ["allow-all"]⟩) ∧
    (matchResource r (.one "sensitive/*") = some true →
      ∀ rest, evaluateAll ⟨a, r, some allowAllDoc :: some denySensitiveDoc :: rest, ctx⟩ =
        .ok ⟨false, .EXPLICIT_DENY, ["allow-all", "deny-sensitive"]⟩) := by
  constructor
  · intro hr
    rw [evaluateAll]
    rw [evaluateAllGo, evaluate_allowAllDoc]
    simp only
    rw [evaluateAllGo, evaluate_denySensitiveDoc a r ctx false hr]
    simp only
    rfl
  · intro hr rest
    rw [evaluateAll]
    rw [evaluateAllGo, evaluate_allowAllDoc]
    simp only
    rw [evaluateAllGo, evaluate_denySensitiveDoc a r ctx true hr]
    simp only
    rfl

/-- Witness for C4 (amended) at the concrete resources `doc/1`
(non-sensitive) and `sensitive/1` (sensitive, with an empty tail). -/
theorem short_circuit_amended_witness :
    evaluateAll ⟨"doc:read", "doc/1", [some allowAllDoc, some denySensitiveDoc], emptyCtx⟩ =
        .ok ⟨true, .EXPLICIT_ALLOW, ["allow-all"]⟩ ∧
      evaluateAll ⟨"doc:read", "sensitive/1",
          some allowAllDoc :: some denySensitiveDoc :: [], emptyCtx⟩ =
        .ok ⟨false, .EXPLICIT_DENY, ["allow-all", "deny-sensitive"]⟩ :=
  ⟨(short_circuit_amended "doc:read" "doc/1" emptyCtx).1 rfl,
   (short_circuit_amended "doc:read" "sensitive/1" emptyCtx).2 rfl []⟩

theorem attMatches_iff (q : GetPoliciesInput) (att : Attachment) :
    attMatches q att = true ↔
      sameScope att.scope q.scope = true ∧
        ((att.principalType = q.principal.type ∧ att.principalId = q.principal.id) ∨
         (att.principalType = .ROLE ∧ att.principalId ∈ q.roleIds) ∨
         (att.principalType = .GROUP ∧ att.principalId ∈ q.groupIds)) := by
  rw [attMatches, Bool.and_eq_true, List.any_eq_true]
  apply and_congr_right
  intro _
  constructor
  · rintro ⟨pr, hpr, hh⟩
    simp only [Bool.and_eq_true, beq_iff_eq] at hh
    rw [principalsToMatch] at hpr
    rcases List.mem_cons.mp hpr with rfl | hpr'
    · exact Or.inl ⟨hh.1.symm, hh.2.symm⟩
    · rcases List.mem_append.mp hpr' with hrole | hgroup
      · obtain ⟨i, hi, rfl⟩ := List.mem_map.mp hrole
        exact Or.inr (Or.inl ⟨hh.1.symm, hh.2 ▸ hi⟩)
      · obtain ⟨i, hi, rfl⟩ := List.mem_map.mp hgroup
        exact Or.inr (Or.inr ⟨hh.1.symm, hh.2 ▸ hi⟩)
  · rintro (⟨h1, h2⟩ | ⟨h1, h2⟩ | ⟨h1, h2⟩)
    · exact ⟨q.principal, List.mem_cons_self _ _, by simp [h1, h2]⟩
    · refine ⟨⟨.ROLE, att.principalId⟩, ?_, by simp [h1]⟩
      rw [principalsToMatch]
      exact List.mem_cons_of_mem _
        (List.mem_append.mpr (Or.inl (List.mem_map.mpr ⟨att.principalId, h2, rfl⟩)))
    · refine ⟨⟨.GROUP, att.principalId⟩, ?_, by simp [h1]⟩
      rw [principalsToMatch]
      exact List.mem_cons_of_mem _
        (List.mem_append.mpr (Or.inr (List.mem_map.mpr ⟨att.principalId, h2, rfl⟩)))

/-- C5: for every provider state and query, `getPolicies` returns
exactly the policies referenced by attachments whose scope equals the
query scope (absent ids compare equal) and whose principal is the query
principal itself, a supplied role id as a ROLE, or a supplied group id
as a GROUP, with the stored record's own scope also equal to the query
scope; each policy id appears at most once; and when no attachment has
the query scope (e.g. querying `{TENANT, t2}` after attaching only under
`{TENANT, t1}`) the result is empty. -/
theorem getPolicies_characterization (p : MemoryPolicyProvider) (q : GetPoliciesInput) :
    (∀ ps : PolicySource, ps ∈ getPolicies p q ↔
      ∃ att ∈ p.attachments,
        sameScope att.scope q.scope = true ∧
        ((att.principalType = q.principal.type ∧ att.principalId = q.principal.id) ∨
         (att.principalType = .ROLE ∧ att.principalId ∈ q.roleIds) ∨
         (att.principalType = .GROUP ∧ att.principalId ∈ q.groupIds)) ∧
        ∃ rcd, lookupPolicy p.policies att.policyId = some rcd ∧
          sameScope rcd.scope q.scope = true ∧ ps = ⟨rcd.id, rcd.document⟩) ∧
    ((getPolicies p q).map (fun ps => ps.id)).Nodup ∧
    ((∀ att ∈ p.attachments, sameScope att.scope q.scope = false) →
      getPolicies p q = []) := by
  refine ⟨?_, getPolicies_ids_nodup p q, ?_⟩
  · intro ps
    rw [mem_getPolicies]
    constructor
    · rintro ⟨att, hmem, hmatch, rest⟩
      obtain ⟨hscope, hprin⟩ := (attMatches_iff q att).mp hmatch
      exact ⟨att, hmem, hscope, hprin, rest⟩
    · rintro ⟨att, hmem, hscope, hprin, rest⟩
      exact ⟨att, hmem, (attMatches_iff q att).mpr ⟨hscope, hprin⟩, rest⟩
  · intro h
    rw [List.eq_nil_iff_forall_not_mem]
    intro ps hps
    obtain ⟨att, hmem, hmatch, -⟩ := (mem_getPolicies p q ps).mp hps
    obtain ⟨hscope, -⟩ := (attMatches_iff q att).mp hmatch
    rw [h att hmem] at hscope
    exact Bool.false_ne_true hscope

/-- Witness for C5: scope isolation at a concrete state — attaching
only under `{TENANT, t1}` and querying `{TENANT, t2}` yields `[]`. -/
theorem getPolicies_characterization_witness :
    getPolicies scopedProvider ⟨tenantScope "t2", ⟨.USER, "u1"⟩, [], []⟩ = [] := by
  refine (getPolicies_characterization scopedProvider
    ⟨tenantScope "t2", ⟨.USER, "u1"⟩, [], []⟩).2.2 ?_
  intro att hatt
  simp only [scopedProvider, attachPolicy, addPolicy, mapSet, List.nil_append] at hatt
  simp only [List.mem_singleton] at hatt
  subst hatt
  rfl

/-- C6 (code bug exhibit): the regex built by `wildcardMatch` does not
escape `?`, so `?` keeps its regex meaning "previous character
optional": the pattern `a*b?` matches the input `axb`, although under
the claimed semantics (every non-`*` character compared literally,
`GlobSpec`) it must not — `axb` does not end in the literal `b?`. -/
theorem wildcard_question_mark_bug :
    wildcardMatch "a*b?" "axb" = some true ∧
      ¬ GlobSpec ("a*b?".data) ("axb".data) :=
  ⟨rfl, fun h => absurd (globSpec_globMatchB h) (by decide)⟩

/-- C7 counterexample: a `StringEquals` condition whose context operand
is the boolean `true` (not a string) nevertheless passes against the
expected string `'true'`, because `evalStringEquals` coerces both
operands with `String()` — the claim's fail-closed behaviour does not
hold, and the statement allows. -/
theorem stringEquals_coercion_cex :
    evaluate ⟨"doc:read", "file/1", some coercePolicy, coerceCtx, true⟩ =
        .ok ⟨true, .EXPLICIT_ALLOW, ["coerce"]⟩ ∧
      getLeft coerceCtx "principal.flag" = .bool true :=
  ⟨rfl, rfl⟩

/-- C7 amended: a `StringEquals` block passes exactly when, for every
entry, the `String()` coercion of the looked-up context value equals the
`String()` coercion of the resolved expected value (for an array
expected value: of some element); non-string operands are coerced, not
failed closed. -/
theorem stringEquals_coerced_spec (ctx : AutorixContext) (kv : List (String × JsValue)) :
    evalStringEquals ctx kv = true ↔ ∀ e ∈ kv, stringEqSpecEntry ctx e := by
  rw [evalStringEquals, List.all_eq_true]
  constructor
  · intro h e he
    exact (stringEqEntry_iff ctx e).mp (h e he)
  · intro h e he
    exact (stringEqEntry_iff ctx e).mpr (h e he)

/-- Witness for C7 (amended) at the concrete boolean-operand entry. -/
theorem stringEquals_coerced_spec_witness :
    stringEqSpecEntry coerceCtx ("principal.flag", .str "true") :=
  (stringEquals_coerced_spec coerceCtx [("principal.flag", .str "true")]).mp rfl
    ("principal.flag", .str "true") (List.mem_singleton.mpr rfl)

/-- C8 counterexample: with `validate: false`, a document whose
condition block uses the unregistered operator `StringEqualsFoo`
evaluates without any error — the unknown operator is silently ignored
and the statement is treated as matching (vacuous pass), so the claim's
"hard error with or without the optional validation step" is false. -/
theorem unknown_operator_cex :
    evaluate ⟨"doc:read", "file/1", some unknownOpPolicy, emptyCtx, false⟩ =
      .ok ⟨true, .EXPLICIT_ALLOW, ["unknown-op"]⟩ := rfl

theorem validateConditionBlock_ne_nil (cb : ConditionBlock) (path : String)
    (e : String × List (String × JsValue)) (he : e ∈ cb) (hop : e.1 ∉ OPERATORS) :
    validateConditionBlock (some cb) path ≠ [] := by
  intro hnil
  rw [validateConditionBlock] at hnil
  rw [List.flatten_eq_nil_iff] at hnil
  have := hnil _ (List.mem_map.mpr ⟨e, he, rfl⟩)
  rw [if_neg hop] at this
  exact List.cons_ne_nil _ _ this

theorem validateStatement_ne_nil (stmt : Statement) (i : Nat) (cb : ConditionBlock)
    (hc : stmt.Condition = some cb) (e : String × List (String × JsValue))
    (he : e ∈ cb) (hop : e.1 ∉ OPERATORS) :
    validateStatement stmt i ≠ [] := by
  intro hnil
  rw [validateStatement] at hnil
  rw [List.append_assoc, List.append_eq_nil] at hnil
  rw [List.append_eq_nil] at hnil
  exact validateConditionBlock_ne_nil cb _ e he hop (hc ▸ hnil.2.2)

theorem validateStatements_ne_nil (s : Statement) (cb : ConditionBlock)
    (hc : s.Condition = some cb) (e : String × List (String × JsValue))
    (he : e ∈ cb) (hop : e.1 ∉ OPERATORS) :
    ∀ (stmts : List Statement) (i : Nat), s ∈ stmts →
      validateStatements stmts i ≠ [] := by
  intro stmts
  induction stmts with
  | nil => intro i hmem; simp at hmem
  | cons t rest ih =>
    intro i hmem hnil
    rw [validateStatements, List.append_eq_nil] at hnil
    rcases List.mem_cons.mp hmem with rfl | hmem'
    · exact validateStatement_ne_nil s i cb hc e he hop hnil.1
    · exact ih (i + 1) hmem' hnil.2

/-- C8 amended: with validation enabled (the default), evaluating a
document whose condition block uses an unregistered operator key raises
the validation error (an `AutorixPolicyValidationError`), aborting the
call; the C8 counterexample shows that with `validate: false` the
unknown key is instead silently ignored as a vacuous pass. -/
theorem unknown_operator_validation (doc : PolicyDocument) (a r : String)
    (ctx : AutorixContext)
    (h : ∃ s ∈ doc.Statement, ∃ cb, s.Condition = some cb ∧
      ∃ e ∈ cb, e.1 ∉ OPERATORS) :
    validatePolicyDocument doc ≠ [] ∧
      evaluate ⟨a, r, some doc, ctx, true⟩ =
        .error (.validation (validatePolicyDocument doc)) := by
  obtain ⟨s, hs, cb, hc, e, he, hop⟩ := h
  have hne : validatePolicyDocument doc ≠ [] := by
    rw [validatePolicyDocument]
    exact validateStatements_ne_nil s cb hc e he hop doc.Statement 0 hs
  refine ⟨hne, ?_⟩
  rw [evaluate]
  simp only
  have hbe : (validatePolicyDocument doc).isEmpty = false := by
    cases hv : validatePolicyDocument doc with
    | nil => exact absurd hv hne
    | cons x xs => rfl
  rw [hbe]
  rfl

/-- Witness for C8 (amended) at the concrete unknown-operator document
with validation enabled. -/
theorem unknown_operator_validation_witness :
    validatePolicyDocument unknownOpPolicy ≠ [] ∧
      evaluate ⟨"doc:read", "file/1", some unknownOpPolicy, emptyCtx, true⟩ =
        .error (.validation (validatePolicyDocument unknownOpPolicy)) := by
  refine unknown_operator_validation unknownOpPolicy "doc:read" "file/1" emptyCtx ?_
  refine ⟨unknownOpStmt, by simp [unknownOpPolicy], ?_⟩
  exact ⟨[("StringEqualsFoo", [("principal.id", .str "x")])], rfl,
    ("StringEqualsFoo", [("principal.id", .str "x")]), List.mem_singleton.mpr rfl,
    by decide⟩

theorem ownerStmt_matches (a r : String) (ctx : AutorixContext)
    (h : ∀ es, getLeft ctx "principal.id" ≠ .arr es) :
    statementMatches a r ctx ownerStmt =
      some (jsToString (getLeft ctx "resource.ownerId") ==
        jsToString (getLeft ctx "principal.id")) := by
  have hred : statementMatches a r ctx ownerStmt =
      evaluateConditions ownerStmt.Condition ctx := by
    rw [statementMatches]
    rw [show matchAction a ownerStmt.Action = some true from rfl]
    rw [show matchResource r ownerStmt.Resource = some true from rfl]
  rw [hred]
  have hse : evalStringEquals ctx
      [("resource.ownerId", .str "$\x7bprincipal.id\x7d")] =
      (jsToString (getLeft ctx "resource.ownerId") ==
        jsToString (getLeft ctx "principal.id")) := by
    rw [evalStringEquals]
    simp only [List.all_cons, List.all_nil, Bool.and_true]
    rw [show resolveValue (.str "$\x7bprincipal.id\x7d") ctx =
      getLeft ctx "principal.id" from rfl]
    cases hE : getLeft ctx "principal.id" with
    | arr es => exact absurd hE (h es)
    | undefined => rfl
    | null => rfl
    | bool b => rfl
    | num n => rfl
    | str s => rfl
    | obj fs => rfl
  rw [show ownerStmt.Condition = some [("StringEquals",
    [("resource.ownerId", JsValue.str "$\x7bprincipal.id\x7d")])] from rfl]
  rw [evaluateConditions]
  rw [show lookupOp [("StringEquals",
      [("resource.ownerId", JsValue.str "$\x7bprincipal.id\x7d")])] "StringEquals" =
    [("resource.ownerId", JsValue.str "$\x7bprincipal.id\x7d")] from rfl]
  rw [hse]
  cases hB : (jsToString (getLeft ctx "resource.ownerId") ==
      jsToString (getLeft ctx "principal.id")) with
  | false => rfl
  | true => rfl

/-- C9 counterexample: with `resource.ownerId` the number `42` and
`principal.id` the string `"42"` — strictly (`===`) unequal values —
the ownership condition still allows, because `evalStringEquals`
compares the `String()` coercions; the claim's "allows when equal,
denies otherwise" (the spec's `===` round-trip) is therefore false. -/
theorem owner_roundtrip_cex :
    evaluate ⟨"doc:read", "file/1", some ownerPolicy, coercedOwnerCtx, true⟩ =
        .ok ⟨true, .EXPLICIT_ALLOW, ["stmt#0"]⟩ ∧
      jsStrictEq (getPath (composed coercedOwnerCtx) "resource.ownerId")
        (getPath (composed coercedOwnerCtx) "principal.id") = false :=
  ⟨rfl, rfl⟩

/-- C9 amended: under the ownership condition, `evaluate` never throws —
it returns a Decision for every context (in particular when either
dotted path is missing, which resolves to `undefined`), allowing
exactly when the `String()` coercions of `ctx.resource.ownerId` and
`ctx.principal.id` are equal, and default-denying otherwise.  (The one
hypothesis excludes an array-valued `principal.id`, where the code
compares against each element instead.) -/
theorem owner_roundtrip_amended (a r : String) (ctx : AutorixContext) (v : Bool)
    (h : ∀ es, getLeft ctx "principal.id" ≠ .arr es) :
    evaluate ⟨a, r, some ownerPolicy, ctx, v⟩ =
      .ok (if jsToString (getLeft ctx "resource.ownerId") ==
              jsToString (getLeft ctx "principal.id")
           then ⟨true, .EXPLICIT_ALLOW, ["stmt#0"]⟩
           else ⟨false, .DEFAULT_DENY, []⟩) := by
  have hsm := ownerStmt_matches a r ctx h
  cases hB : (jsToString (getLeft ctx "resource.ownerId") ==
      jsToString (getLeft ctx "principal.id")) with
  | false =>
    rw [hB] at hsm
    have hscan : scanStatements a r ctx ownerPolicy.Statement 0 = some ([], []) := by
      rw [show ownerPolicy.Statement = [ownerStmt] from rfl, scanStatements, hsm]
      rfl
    rw [evaluate]
    simp only
    rw [show validatePolicyDocument ownerPolicy = [] from rfl]
    simp only [List.isEmpty_nil, Bool.not_true, Bool.and_false, Bool.false_eq_true,
      if_false]
    rw [hscan]
    rfl
  | true =>
    rw [hB] at hsm
    have hscan : scanStatements a r ctx ownerPolicy.Statement 0 =
        some (["stmt#0"], []) := by
      rw [show ownerPolicy.Statement = [ownerStmt] from rfl, scanStatements, hsm]
      rfl
    rw [evaluate]
    simp only
    rw [show validatePolicyDocument ownerPolicy = [] from rfl]
    simp only [List.isEmpty_nil, Bool.not_true, Bool.and_false, Bool.false_eq_true,
      if_false]
    rw [hscan]
    rfl

/-- Witness for C9 (amended) at a context where owner and principal
coincide (allow) — the hypothesis is discharged by computing
`principal.id` to a string. -/
theorem owner_roundtrip_amended_witness :
    evaluate ⟨"doc:read", "file/1", some ownerPolicy, ownerOkCtx, true⟩ =
      .ok ⟨true, .EXPLICIT_ALLOW, ["stmt#0"]⟩ := by
  have h := owner_roundtrip_amended "doc:read" "file/1" ownerOkCtx true
    (fun es hc => by
      rw [show getLeft ownerOkCtx "principal.id" = .str "u1" from rfl] at hc
      exact JsValue.noConfusion hc)
  rw [h]
  rfl

end Autorix
